import Mathlib

/-!
Verification development for the tinytodo-db server
(`src/tinytodo-db/src/{context.rs, entitystore.rs, objects.rs}`).

The SQLite database owned by `EntityStore` is modelled as a `Database`
record whose tables are Lean lists kept in insertion order; SQLite's
monotonic ROWID assignment for the `tasks` table is modelled by the
`nextRowid` counter, and the `uuid` crate's fresh UUID generation by the
deterministic `freshCounter` counter.  The cedar policy engine and the
residual-to-SQL translator live in crates outside `src/`; they are
modelled from the spec where needed, each such definition marked in its
doc comment.
-/

/-- Entity type names used by the application (`util.rs`): `User`, `Team`,
`List`, `Application`, `Action`. -/
inductive EntityType
  | user
  | team
  | list
  | app
  | action
deriving DecidableEq, Repr

/-- An entity identifier: a pair of type and id string, with canonical
textual form `Type::"id"`. -/
structure EUID where
  ty : EntityType
  id : String
deriving DecidableEq, Repr

/-- The process-wide singleton `Application::"TinyTodo"` (context.rs). -/
def applicationTinyTodo : EUID := ⟨.app, "TinyTodo"⟩

def userE (u : String) : EUID := ⟨.user, u⟩

def teamE (t : String) : EUID := ⟨.team, t⟩

def listE (l : String) : EUID := ⟨.list, l⟩

def actionEditShare : EUID := ⟨.action, "EditShare"⟩

def actionUpdateTask : EUID := ⟨.action, "UpdateTask"⟩

def actionCreateTask : EUID := ⟨.action, "CreateTask"⟩

def actionDeleteTask : EUID := ⟨.action, "DeleteTask"⟩

def actionGetLists : EUID := ⟨.action, "GetLists"⟩

def actionGetList : EUID := ⟨.action, "GetList"⟩

def actionCreateList : EUID := ⟨.action, "CreateList"⟩

def actionUpdateList : EUID := ⟨.action, "UpdateList"⟩

def actionDeleteList : EUID := ⟨.action, "DeleteList"⟩

/-- `TaskState` (objects.rs): `Checked` or `Unchecked`. -/
inductive TaskState
  | checked
  | unchecked
deriving DecidableEq, Repr

/-- `From<bool> for TaskState` (objects.rs): `true ↦ Checked`,
`false ↦ Unchecked` (DB encoding `0 = Unchecked`, `1 = Checked`). -/
def TaskState.ofBool (b : Bool) : TaskState :=
  if b then .checked else .unchecked

/-- `Task` (objects.rs): id (int64 ROWID), name, state. -/
structure TaskObj where
  id : Int
  name : String
  state : TaskState
deriving DecidableEq, Repr

/-- A row of the `tasks` table: `tasks(ROWID, name, state BOOL, list_uid)`. -/
structure TaskRow where
  rowid : Int
  name : String
  state : Bool
  list_uid : String
deriving DecidableEq, Repr

/-- A row of the `lists` table: `lists(uid, owner, name, readers, editors)`. -/
structure ListRow where
  uid : String
  owner : String
  name : String
  readers : String
  editors : String
deriving DecidableEq, Repr

/-- The SQLite database owned by the `EntityStore`.  Tables are lists in
insertion order; `nextRowid` models SQLite's monotonic ROWID assignment
for `tasks` and `freshCounter` models fresh UUID generation. -/
structure Database where
  users : List (String × String)
  teams : List String
  team_memberships : List (String × String)
  subteams : List (String × String)
  lists : List ListRow
  tasks : List TaskRow
  nextRowid : Int
  freshCounter : Nat
deriving DecidableEq, Repr

/-- `List` (objects.rs): uid, owner, name, tasks, readers, editors. -/
structure ListObj where
  uid : String
  owner : String
  name : String
  tasks : List TaskObj
  readers : String
  editors : String
deriving DecidableEq, Repr

/-- Authorization decision of the policy engine. -/
inductive Decision
  | allow
  | deny
deriving DecidableEq, Repr

/-- `ShareRole` (api.rs, used by AddShare/DeleteShare). -/
inductive ShareRole
  | reader
  | editor
deriving DecidableEq, Repr

/-- The error taxonomy of `context.rs` restricted to the variants the
modelled operations can produce. -/
inductive Error
  | noSuchEntity (e : EUID)
  | authDenied
  | invalidTaskId (l : EUID) (id : Int)
deriving DecidableEq, Repr

/-- `AppResponse` (context.rs): the closed set of reply shapes. -/
inductive AppResponse
  | getList (l : ListObj)
  | euid (e : EUID)
  | lists (ls : List EUID)
  | taskId (id : Int)
  | unit
deriving DecidableEq, Repr

namespace EntityStore

/-- `EntityStore::create_team` (entitystore.rs): `INSERT INTO teams
VALUES (?)` with a fresh UUID, returning the fresh uid. -/
def create_team (db : Database) : String × Database :=
  let uid := "uuid-" ++ toString db.freshCounter
  (uid, { db with teams := db.teams ++ [uid], freshCounter := db.freshCounter + 1 })

/-- `EntityStore::create_list` (entitystore.rs): `INSERT INTO lists
VALUES (?, ?, ?, ?, ?)` with a fresh UUID, returning the fresh uid. -/
def create_list (db : Database) (owner name readers editors : String) :
    String × Database :=
  let uid := "uuid-" ++ toString db.freshCounter
  (uid, { db with
            lists := db.lists ++ [⟨uid, owner, name, readers, editors⟩],
            freshCounter := db.freshCounter + 1 })

/-- `EntityStore::get_tasks` (entitystore.rs): `SELECT ROWID, name, state
FROM tasks WHERE list_uid = ?`, each row decoded through
`TaskState.ofBool`.  The single-table scan returns rows in table (rowid)
order, modelled by filtering the table list in order. -/
def get_tasks (db : Database) (l : String) : List TaskObj :=
  (db.tasks.filter (fun t => t.list_uid == l)).map
    (fun t => ⟨t.rowid, t.name, TaskState.ofBool t.state⟩)

/-- `EntityStore::get_list` (entitystore.rs): fetches the tasks, then
`SELECT owner, name, readers, editors FROM lists WHERE uid = ?`; a
missing row becomes `NoSuchEntity`. -/
def get_list (db : Database) (l : String) : Except Error ListObj :=
  match db.lists.find? (fun r => r.uid == l) with
  | some r => .ok ⟨r.uid, r.owner, r.name, get_tasks db l, r.readers, r.editors⟩
  | none => .error (.noSuchEntity (listE l))

/-- `EntityStore::update_list` (entitystore.rs): `UPDATE lists SET name =
? WHERE uid = ?`. -/
def update_list (db : Database) (l name : String) : Database :=
  { db with lists := db.lists.map (fun r => if r.uid == l then { r with name } else r) }

/-- `EntityStore::delete_list` (entitystore.rs): `DELETE FROM lists WHERE
uid = ?`; the SQL schema cascades the delete to the list's tasks
(spec §3 invariants, Scenario F). -/
def delete_list (db : Database) (l : String) : Database :=
  { db with lists := db.lists.filter (fun r => !(r.uid == l)),
            tasks := db.tasks.filter (fun t => !(t.list_uid == l)) }

/-- `EntityStore::create_task` (entitystore.rs): `INSERT INTO tasks
VALUES (?, ?, ?)` with state `false`, then `SELECT last_insert_rowid()`;
returns the assigned ROWID. -/
def create_task (db : Database) (l name : String) : Int × Database :=
  (db.nextRowid,
   { db with tasks := db.tasks ++ [⟨db.nextRowid, name, false, l⟩],
             nextRowid := db.nextRowid + 1 })

/-- `EntityStore::update_task` (entitystore.rs): `UPDATE tasks SET state
= ? WHERE ROWID = ? AND list_uid = ?`; the match count is discarded. -/
def update_task (db : Database) (l : String) (id : Int) (st : TaskState) : Database :=
  { db with tasks := db.tasks.map (fun t =>
      if t.rowid == id && t.list_uid == l then
        { t with state := st == TaskState.checked }
      else t) }

/-- `EntityStore::delete_task` (entitystore.rs): `DELETE FROM tasks WHERE
ROWID = ? AND list_uid = ?`; if no row changed, the call fails with
`InvalidTaskId(list, id)`. -/
def delete_task (db : Database) (l : String) (id : Int) : Except Error Database :=
  if db.tasks.any (fun t => t.rowid == id && t.list_uid == l) then
    .ok { db with tasks := db.tasks.filter (fun t => !(t.rowid == id && t.list_uid == l)) }
  else
    .error (.invalidTaskId (listE l) id)

/-- An entity as produced by the Entity Resolution Layer: identifier plus
ancestor set (attributes are not needed by the claims about ancestors). -/
structure ModelEntity where
  uid : EUID
  ancestors : List EUID
deriving DecidableEq, Repr

/-- `EntityDatabase::get` for `EntityStore` (entitystore.rs, lines
52-72).  The User branch collects the teams from `team_memberships` and
extends with the uid itself and `Application::"TinyTodo"`; the Team
branch collects the super-teams from `subteams` and inserts only
`Application::"TinyTodo"`; the List branch delegates to `get_list`,
whose entity has parents `{Application, self}` (objects.rs, lines
250-256); `Application` and `Action` are synthesized with no ancestors.
The `EntitySQLInfo`/`AncestorSQLInfo` helpers live in a crate outside
`src/` and are modelled from the spec (§4.1): an ancestor link table is
looked up by child id, yielding the parent ids; the primary row table is
probed for existence of the row. -/
def getEntity (db : Database) (uid : EUID) : Option ModelEntity :=
  match uid.ty with
  | .user =>
    if db.users.any (fun p => p.1 == uid.id) then
      some ⟨uid,
        ((db.team_memberships.filter (fun p => p.1 == uid.id)).map
          (fun p => teamE p.2)) ++ [uid, applicationTinyTodo]⟩
    else none
  | .team =>
    if db.teams.any (fun t => t == uid.id) then
      some ⟨uid,
        ((db.subteams.filter (fun p => p.1 == uid.id)).map
          (fun p => teamE p.2)) ++ [applicationTinyTodo]⟩
    else none
  | .list =>
    match get_list db uid.id with
    | .ok _ => some ⟨uid, [applicationTinyTodo, uid]⟩
    | .error _ => none
  | .app => some ⟨uid, []⟩
  | .action => some ⟨uid, []⟩

end EntityStore

/-- An attribute of the `List` entity / a column of the `lists` table,
as declared by the Entity Schema Map (entitystore.rs `LIST_TABLE_INFO`). -/
inductive Attr
  | owner
  | name
  | readers
  | editors
deriving DecidableEq, Repr

/-- The column of a `lists` row named by an attribute. -/
def ListRow.attr : ListRow → Attr → String
  | r, .owner => r.owner
  | r, .name => r.name
  | r, .readers => r.readers
  | r, .editors => r.editors

/-- Modelled from the spec: the residual expression trees produced by
cedar partial evaluation (`cedar_policy::PartialResponse::Residual`, not
under `src/`), per §4.4 and §9 "Residual trees": literals, boolean
connectives, `==` on scalars and on EUIDs, `resource.attr` references,
`principal in resource.attr`, `resource in resource`, `if-then-else`.
The principal and action are already concrete at partial-evaluation
time, so the principal's uid is baked into the membership test, and an
EUID comparison against a typed literal carries only the id (the
validated schema guarantees the literal's type matches the column's
declared type, per the §4.4 lowering table). -/
inductive CExpr
  | litBool (b : Bool)
  | attrEqStr (a : Attr) (s : String)
  | attrEqEuid (a : Attr) (i : String)
  | principalInTeamAttr (u : String) (a : Attr)
  | resourceInResource
  | and (x y : CExpr)
  | or (x y : CExpr)
  | not (x : CExpr)
  | ite (c t e : CExpr)
deriving DecidableEq, Repr

/-- Modelled from the spec: cedar's concrete evaluation of a residual on
the entity corresponding to a candidate `lists` row (the policy side of
the §8 round-trip law).  `principal in resource.attr` holds exactly when
the team stored in the column is among the principal's ancestors, which
by `EntityStore.getEntity` are its direct rows in `team_memberships`
(plus the differently-typed self and Application); `resource in
resource` holds because a `List` entity has itself as a parent
(objects.rs, lines 250-256). -/
def evalPolicy (db : Database) (r : ListRow) : CExpr → Bool
  | .litBool b => b
  | .attrEqStr a s => r.attr a == s
  | .attrEqEuid a i => r.attr a == i
  | .principalInTeamAttr u a =>
      db.team_memberships.any (fun p => p.1 == u && p.2 == r.attr a)
  | .resourceInResource => true
  | .and x y => evalPolicy db r x && evalPolicy db r y
  | .or x y => evalPolicy db r x || evalPolicy db r y
  | .not x => !(evalPolicy db r x)
  | .ite c t e => if evalPolicy db r c then evalPolicy db r t else evalPolicy db r e

/-- Modelled from the spec: constant folding of a residual, used to
decide whether partial evaluation yields a concrete decision.  Only
subtrees independent of the unknown resource fold to a constant. -/
def constFold : CExpr → Option Bool
  | .litBool b => some b
  | .and x y =>
      match constFold x, constFold y with
      | some a, some b => some (a && b)
      | _, _ => none
  | .or x y =>
      match constFold x, constFold y with
      | some a, some b => some (a || b)
      | _, _ => none
  | .not x => (constFold x).map (fun b => !b)
  | .ite c t e =>
      match constFold c, constFold t, constFold e with
      | some a, some b, some b2 => some (if a then b else b2)
      | _, _, _ => none
  | _ => none

/-- `cedar_policy::PartialResponse`: either a concrete decision or one
residual per still-relevant policy. -/
inductive PartialResponse
  | concrete (d : Decision)
  | residual (rs : List CExpr)
deriving DecidableEq, Repr

/-- Modelled from the spec: `Authorizer::is_authorized_parsed`
(cedar_policy, not under `src/`) on the request with concrete principal
and action and an unknown `List`-typed resource.  `conds` are the
conditions of the permit policies for the given (principal, action),
with the principal already substituted.  The decision is concrete when
it no longer depends on the resource: Allow if some condition folds to
`true`, Deny if every condition folds to a constant (necessarily
`false`); otherwise the still-relevant (not constantly false)
conditions are returned as residuals, with permit-if-any semantics
(§4.4). -/
def partEval (conds : List CExpr) : PartialResponse :=
  if conds.any (fun c => constFold c == some true) then .concrete .allow
  else if conds.all (fun c => (constFold c).isSome) then .concrete .deny
  else .residual (conds.filter (fun c => !(constFold c == some false)))

/-- Modelled from the spec: `Authorizer::is_authorized_full_parsed`
(cedar_policy, not under `src/`) at a concrete resource row: Allow
exactly when some policy condition evaluates to `true` on the
corresponding entity (permit-if-any). -/
def fullDecision (conds : List CExpr) (db : Database) (r : ListRow) : Decision :=
  if conds.any (evalPolicy db r) then .allow else .deny

/-- Modelled from the spec: the SQL `WHERE` predicate fragment emitted by
the translator (`sea_query` condition tree), evaluated per candidate
`lists` row, per the §4.4 lowering table: literals, `AND`/`OR`/`NOT`,
`=` on columns, `EXISTS` against the membership table, and
`CASE WHEN`. -/
inductive SqlExpr
  | lit (b : Bool)
  | eqColStr (a : Attr) (s : String)
  | existsMembership (u : String) (a : Attr)
  | and (x y : SqlExpr)
  | or (x y : SqlExpr)
  | not (x : SqlExpr)
  | caseWhen (c t e : SqlExpr)
deriving DecidableEq, Repr

/-- Modelled from the spec: evaluation of the emitted `WHERE` predicate
on one candidate row of `lists AS resource`, against the database (the
SQL side of the §8 round-trip law).  `existsMembership u a` is
`EXISTS(SELECT 1 FROM team_memberships WHERE user_uid = u AND team_uid =
resource.a)`. -/
def evalSql (db : Database) (r : ListRow) : SqlExpr → Bool
  | .lit b => b
  | .eqColStr a s => r.attr a == s
  | .existsMembership u a =>
      db.team_memberships.any (fun p => p.1 == u && p.2 == r.attr a)
  | .and x y => evalSql db r x && evalSql db r y
  | .or x y => evalSql db r x || evalSql db r y
  | .not x => !(evalSql db r x)
  | .caseWhen c t e => if evalSql db r c then evalSql db r t else evalSql db r e

/-- Modelled from the spec: the residual-to-SQL translation of one
residual (`cedar_db_example::expr_to_query::translate_response`, code of
this repository outside `src/`), following the §4.4 operator-lowering
table, with the membership resolver wired to
`(User, Team) ↦ (team_memberships, user_uid, team_uid)`
(context.rs, lines 399-408). -/
def translateResidual : CExpr → SqlExpr
  | .litBool b => .lit b
  | .attrEqStr a s => .eqColStr a s
  | .attrEqEuid a i => .eqColStr a i
  | .principalInTeamAttr u a => .existsMembership u a
  | .resourceInResource => .lit true
  | .and x y => .and (translateResidual x) (translateResidual y)
  | .or x y => .or (translateResidual x) (translateResidual y)
  | .not x => .not (translateResidual x)
  | .ite c t e => .caseWhen (translateResidual c) (translateResidual t) (translateResidual e)

/-- OR-combination of the translated residual predicates (`sea_query`
`Condition::any`); empty yields `FALSE`. -/
def orAll (es : List SqlExpr) : SqlExpr :=
  es.foldr .or (.lit false)

/-- The decision function of the external authorizer as seen by the
singleton-resource handlers: one decision per (principal, action,
resource) triple. -/
def Auth : Type := EUID → EUID → EUID → Decision

namespace AppContext

/-- `AppContext::is_authorized` (context.rs, lines 412-438): Allow maps
to `Ok(())`, Deny to `Err(AuthDenied)`. -/
def is_authorized (auth : Auth) (p a r : EUID) : Except Error Unit :=
  match auth p a r with
  | .allow => .ok ()
  | .deny => .error .authDenied

/-- `AppContext::create_list` (context.rs): authorize `CreateList` on the
Application, create the readers and editors teams, then the list row. -/
def create_list (auth : Auth) (db : Database) (u name : String) :
    Except Error AppResponse × Database :=
  match is_authorized auth (userE u) actionCreateList applicationTinyTodo with
  | .error e => (.error e, db)
  | .ok _ =>
    let rdb := EntityStore.create_team db
    let edb := EntityStore.create_team rdb.2
    let ldb := EntityStore.create_list edb.2 u name rdb.1 edb.1
    (.ok (.euid (listE ldb.1)), ldb.2)

/-- `AppContext::get_list` (context.rs): authorize `GetList` on the list,
then fetch it. -/
def get_list (auth : Auth) (db : Database) (u l : String) :
    Except Error AppResponse :=
  match is_authorized auth (userE u) actionGetList (listE l) with
  | .error e => .error e
  | .ok _ =>
    match EntityStore.get_list db l with
    | .ok lst => .ok (.getList lst)
    | .error e => .error e

/-- `AppContext::update_list` (context.rs). -/
def update_list (auth : Auth) (db : Database) (u l name : String) :
    Except Error AppResponse × Database :=
  match is_authorized auth (userE u) actionUpdateList (listE l) with
  | .error e => (.error e, db)
  | .ok _ => (.ok .unit, EntityStore.update_list db l name)

/-- `AppContext::delete_list` (context.rs). -/
def delete_list (auth : Auth) (db : Database) (u l : String) :
    Except Error AppResponse × Database :=
  match is_authorized auth (userE u) actionDeleteList (listE l) with
  | .error e => (.error e, db)
  | .ok _ => (.ok .unit, EntityStore.delete_list db l)

/-- `AppContext::create_task` (context.rs): authorize `CreateTask` on the
list, insert the row, reply with the assigned ROWID. -/
def create_task (auth : Auth) (db : Database) (u l name : String) :
    Except Error AppResponse × Database :=
  match is_authorized auth (userE u) actionCreateTask (listE l) with
  | .error e => (.error e, db)
  | .ok _ =>
    let idb := EntityStore.create_task db l name
    (.ok (.taskId idb.1), idb.2)

/-- `AppContext::update_task` (context.rs): authorize `UpdateTask` on the
list; only when a new state is supplied is the store updated. -/
def update_task (auth : Auth) (db : Database) (u l : String) (id : Int)
    (st : Option TaskState) : Except Error AppResponse × Database :=
  match is_authorized auth (userE u) actionUpdateTask (listE l) with
  | .error e => (.error e, db)
  | .ok _ =>
    match st with
    | some newState => (.ok .unit, EntityStore.update_task db l id newState)
    | none => (.ok .unit, db)

/-- `AppContext::delete_task` (context.rs): authorize `DeleteTask` on the
list, then delete the row, propagating `InvalidTaskId`. -/
def delete_task (auth : Auth) (db : Database) (u l : String) (id : Int) :
    Except Error AppResponse × Database :=
  match is_authorized auth (userE u) actionDeleteTask (listE l) with
  | .error e => (.error e, db)
  | .ok _ =>
    match EntityStore.delete_task db l id with
    | .ok db2 => (.ok .unit, db2)
    | .error e => (.error e, db)

/-- `AppContext::add_share` (context.rs, lines 304-311): authorizes
`EditShare` on the list; the membership mutation is commented out in the
source, so the handler performs no store mutation. -/
def add_share (auth : Auth) (db : Database) (u l : String) (sw : EUID)
    (role : ShareRole) : Except Error AppResponse × Database :=
  match is_authorized auth (userE u) actionEditShare (listE l) with
  | .error e => (.error e, db)
  | .ok _ => (.ok .unit, db)

/-- `AppContext::delete_share` (context.rs, lines 313-321): authorizes
`EditShare` on the list; the membership mutation is commented out in the
source, so the handler performs no store mutation. -/
def delete_share (auth : Auth) (db : Database) (u l : String) (sw : EUID)
    (role : ShareRole) : Except Error AppResponse × Database :=
  match is_authorized auth (userE u) actionEditShare (listE l) with
  | .error e => (.error e, db)
  | .ok _ => (.ok .unit, db)

/-- `AppContext::get_all_authorized_lists` (context.rs, lines 387-410):
partial evaluation with unknown `List` resource; a concrete decision
becomes the boolean literal `decision == Allow`, a residual is
translated (the translator OR-combines the per-policy predicates). -/
def get_all_authorized_lists (conds : List CExpr) : SqlExpr :=
  match partEval conds with
  | .concrete d => .lit (d == Decision.allow)
  | .residual rs => orAll (rs.map translateResidual)

/-- `AppContext::get_lists` (context.rs, lines 345-358): gate on
`is_authorized(principal, GetLists, Application)`, build the `WHERE`
fragment via `get_all_authorized_lists(principal, GetList)`, compose
with `SELECT resource.uid FROM lists AS resource` and execute: the rows
of `lists` satisfying the predicate, in table order, mapped to `List`
EUIDs. -/
def get_lists (auth : Auth) (conds : List CExpr) (db : Database) (u : String) :
    Except Error AppResponse :=
  match is_authorized auth (userE u) actionGetLists applicationTinyTodo with
  | .error e => .error e
  | .ok _ =>
    let w := get_all_authorized_lists conds
    .ok (.lists ((db.lists.filter (fun r => evalSql db r w)).map
      (fun r => listE r.uid)))

end AppContext

/-- Round-trip law (§8): the translated predicate evaluated per candidate
row agrees with the policy residual evaluated on the corresponding
entity. -/
theorem translateResidual_eval (db : Database) (r : ListRow) :
    ∀ c : CExpr, evalSql db r (translateResidual c) = evalPolicy db r c := by
  intro c
  induction c <;> simp [translateResidual, evalSql, evalPolicy, *]

/-- Constant folding is sound: a residual that folds to a constant
evaluates to that constant on every row. -/
theorem constFold_sound (db : Database) (r : ListRow) :
    ∀ (c : CExpr) (b : Bool), constFold c = some b → evalPolicy db r c = b := by
  intro c
  induction c with
  | litBool b =>
      intro b2 h
      simp [constFold] at h
      simp [evalPolicy, h]
  | attrEqStr a s => intro b h; simp [constFold] at h
  | attrEqEuid a i => intro b h; simp [constFold] at h
  | principalInTeamAttr u a => intro b h; simp [constFold] at h
  | resourceInResource => intro b h; simp [constFold] at h
  | and x y ihx ihy =>
      intro b h
      simp only [constFold] at h
      cases hx : constFold x <;> cases hy : constFold y <;> rw [hx, hy] at h <;>
        simp at h
      simp [evalPolicy, ihx _ hx, ihy _ hy, h]
  | or x y ihx ihy =>
      intro b h
      simp only [constFold] at h
      cases hx : constFold x <;> cases hy : constFold y <;> rw [hx, hy] at h <;>
        simp at h
      simp [evalPolicy, ihx _ hx, ihy _ hy, h]
  | not x ihx =>
      intro b h
      simp only [constFold] at h
      cases hx : constFold x <;> rw [hx] at h <;> simp at h
      simp [evalPolicy, ihx _ hx, h]
  | ite c t e ihc iht ihe =>
      intro b h
      simp only [constFold] at h
      cases hc : constFold c <;> cases ht : constFold t <;> cases he : constFold e <;>
        rw [hc, ht, he] at h <;> simp at h
      simp [evalPolicy, ihc _ hc, iht _ ht, ihe _ he, h]

/-- OR-combination evaluates to the disjunction of the predicates. -/
theorem orAll_eval (db : Database) (r : ListRow) (es : List SqlExpr) :
    evalSql db r (orAll es) = es.any (evalSql db r) := by
  induction es with
  | nil => rfl
  | cons e es ih => simp [orAll, evalSql, List.any_cons] at ih ⊢; rw [ih]

/-- Dropping the constantly-false residuals does not change the
permit-if-any disjunction. -/
theorem any_eval_filter_not_false (db : Database) (r : ListRow) (conds : List CExpr) :
    (conds.filter (fun c => !(constFold c == some false))).any (evalPolicy db r) =
      conds.any (evalPolicy db r) := by
  induction conds with
  | nil => rfl
  | cons c cs ih =>
      by_cases hc : constFold c = some false
      · simp [List.filter_cons, hc, constFold_sound db r c false hc, ih]
      · simp only [List.filter_cons]
        have : (constFold c == some false) = false := by
          simp [beq_eq_false_iff_ne, hc]
        simp [this, List.any_cons, ih]

/-- The `WHERE` fragment built by `get_all_authorized_lists` holds on a
row exactly when some policy condition holds on the corresponding
entity. -/
theorem get_all_authorized_lists_eval (conds : List CExpr) (db : Database) (r : ListRow) :
    evalSql db r (AppContext.get_all_authorized_lists conds) =
      conds.any (evalPolicy db r) := by
  unfold AppContext.get_all_authorized_lists
  cases hpe : partEval conds with
  | concrete d =>
      unfold partEval at hpe
      by_cases h1 : conds.any (fun c => constFold c == some true) = true
      · rw [if_pos h1] at hpe
        obtain ⟨c, hc, hct⟩ := List.any_eq_true.mp h1
        have : evalPolicy db r c = true :=
          constFold_sound db r c true (by simpa using hct)
        have hany : conds.any (evalPolicy db r) = true :=
          List.any_eq_true.mpr ⟨c, hc, this⟩
        cases hpe
        simp [evalSql, hany]
      · rw [if_neg h1] at hpe
        by_cases h2 : conds.all (fun c => (constFold c).isSome) = true
        · rw [if_pos h2] at hpe
          cases hpe
          have hany : conds.any (evalPolicy db r) = false := by
            rw [List.any_eq_false]
            intro c hc
            have hsome := List.all_eq_true.mp h2 c hc
            obtain ⟨b, hb⟩ := Option.isSome_iff_exists.mp (by simpa using hsome)
            have : b = false := by
              by_contra hbt
              have hbt2 : b = true := by revert hbt; cases b <;> simp
              subst hbt2
              have h1f : (conds.any fun c => constFold c == some true) = false :=
                Bool.eq_false_iff.mpr h1
              exact absurd (show (constFold c == some true) = true by simp [hb])
                (by simpa using List.any_eq_false.mp h1f c hc)
            subst this
            simp [constFold_sound db r c false hb]
          simp [evalSql, hany]
        · rw [if_neg h2] at hpe
          cases hpe
  | residual rs =>
      unfold partEval at hpe
      by_cases h1 : conds.any (fun c => constFold c == some true) = true
      · rw [if_pos h1] at hpe; cases hpe
      · rw [if_neg h1] at hpe
        by_cases h2 : conds.all (fun c => (constFold c).isSome) = true
        · rw [if_pos h2] at hpe; cases hpe
        · rw [if_neg h2] at hpe
          cases hpe
          rw [orAll_eval]
          have hmap : ∀ l : List CExpr,
              (l.map translateResidual).any (evalSql db r) = l.any (evalPolicy db r) := by
            intro l
            induction l with
            | nil => rfl
            | cons a l ih => simp [List.any_cons, ih, translateResidual_eval]
          rw [hmap]
          exact any_eval_filter_not_false db r conds

/-- The authorizer that allows every request. -/
def allowAll : Auth := fun _ _ _ => Decision.allow

/-- The authorizer that denies every request. -/
def denyAll : Auth := fun _ _ _ => Decision.deny

/-- A sample `lists` row. -/
def rowW : ListRow := ⟨"l1", "u1", "groceries", "r1", "e1"⟩

/-- A second sample `lists` row, owned by someone else. -/
def rowW2 : ListRow := ⟨"l2", "u9", "other", "r2", "e2"⟩

/-- A sample database with one user, two lists and two tasks on `l1`. -/
def dbW : Database :=
  ⟨[("u1", "User One")], ["r1", "e1", "r2", "e2"], [], [],
   [rowW, rowW2], [⟨1, "a", false, "l1"⟩, ⟨2, "b", true, "l1"⟩], 3, 0⟩

/-- A sample policy condition list: owner `u1` may act, and members of
the readers team may act. -/
def condsW : List CExpr :=
  [.attrEqEuid .owner "u1", .principalInTeamAttr "u1" .readers]

/-- C1: for every principal for which `GetLists` succeeds, the returned
sequence of list EUIDs equals, in store order, the set of lists in the
store on which the full authorization check for `GetList` allows the
principal. -/
theorem getLists_matches_full_authorization (auth : Auth) (conds : List CExpr)
    (db : Database) (u : String) (out : List EUID)
    (h : AppContext.get_lists auth conds db u = .ok (.lists out)) :
    out = (db.lists.filter (fun r => fullDecision conds db r == Decision.allow)).map
      (fun r => listE r.uid) := by
  unfold AppContext.get_lists at h
  cases hga : AppContext.is_authorized auth (userE u) actionGetLists applicationTinyTodo with
  | error e => rw [hga] at h; exact absurd h (by simp)
  | ok _ =>
    rw [hga] at h
    simp only [Except.ok.injEq, AppResponse.lists.injEq] at h
    rw [← h]
    congr 1
    apply List.filter_congr
    intro r _
    rw [get_all_authorized_lists_eval]
    unfold fullDecision
    by_cases hany : conds.any (evalPolicy db r) = true <;> simp [hany]

/-- Witness for C1 at a concrete store and policy set: `u1` owns `l1`
but not `l2`, and `GetLists` returns exactly `[List::"l1"]`. -/
theorem getLists_matches_full_authorization_witness :
    AppContext.get_lists allowAll condsW dbW "u1" = .ok (.lists [listE "l1"]) ∧
    [listE "l1"] =
      (dbW.lists.filter (fun r => fullDecision condsW dbW r == Decision.allow)).map
        (fun r => listE r.uid) :=
  ⟨by rfl,
   getLists_matches_full_authorization allowAll condsW dbW "u1" [listE "l1"] (by rfl)⟩

/-- C2: a concrete partial-evaluation decision makes
`get_all_authorized_lists` return the literal `WHERE` clause
`decision == Allow`: `TRUE` for Allow and `FALSE` for Deny, the same
shape of fragment as the residual case. -/
theorem concrete_decision_yields_literal_where (conds : List CExpr) (d : Decision)
    (h : partEval conds = .concrete d) :
    AppContext.get_all_authorized_lists conds = .lit (d == Decision.allow) ∧
    (d = .allow → AppContext.get_all_authorized_lists conds = .lit true) ∧
    (d = .deny → AppContext.get_all_authorized_lists conds = .lit false) := by
  unfold AppContext.get_all_authorized_lists
  rw [h]
  refine ⟨rfl, ?_, ?_⟩ <;> rintro rfl <;> rfl

/-- Witness for C2: the policy set whose single condition is the literal
`true` partially evaluates to a concrete Allow, and the emitted `WHERE`
clause is the literal `TRUE`. -/
theorem concrete_decision_yields_literal_where_witness :
    partEval [CExpr.litBool true] = .concrete .allow ∧
    AppContext.get_all_authorized_lists [CExpr.litBool true] =
      .lit (Decision.allow == Decision.allow) :=
  ⟨by decide,
   (concrete_decision_yields_literal_where [CExpr.litBool true] Decision.allow
     (by decide)).1⟩

/-- C3: every mutation handler whose initial authorization check denies
returns `AuthDenied` and leaves the entity store unchanged: no SQL
mutation runs.  One conjunct per handler (AddShare and DeleteShare both
authorize action `EditShare` on the list). -/
theorem denied_handlers_do_not_mutate (auth : Auth) (db : Database)
    (u l name : String) (id : Int) (st : Option TaskState) (sw : EUID)
    (role : ShareRole)
    (h1 : auth (userE u) actionCreateList applicationTinyTodo = .deny)
    (h2 : auth (userE u) actionUpdateList (listE l) = .deny)
    (h3 : auth (userE u) actionDeleteList (listE l) = .deny)
    (h4 : auth (userE u) actionCreateTask (listE l) = .deny)
    (h5 : auth (userE u) actionUpdateTask (listE l) = .deny)
    (h6 : auth (userE u) actionDeleteTask (listE l) = .deny)
    (h7 : auth (userE u) actionEditShare (listE l) = .deny) :
    AppContext.create_list auth db u name = (.error .authDenied, db) ∧
    AppContext.update_list auth db u l name = (.error .authDenied, db) ∧
    AppContext.delete_list auth db u l = (.error .authDenied, db) ∧
    AppContext.create_task auth db u l name = (.error .authDenied, db) ∧
    AppContext.update_task auth db u l id st = (.error .authDenied, db) ∧
    AppContext.delete_task auth db u l id = (.error .authDenied, db) ∧
    AppContext.add_share auth db u l sw role = (.error .authDenied, db) ∧
    AppContext.delete_share auth db u l sw role = (.error .authDenied, db) := by
  unfold AppContext.create_list AppContext.update_list AppContext.delete_list
    AppContext.create_task AppContext.update_task AppContext.delete_task
    AppContext.add_share AppContext.delete_share AppContext.is_authorized
  rw [h1, h2, h3, h4, h5, h6, h7]
  exact ⟨rfl, rfl, rfl, rfl, rfl, rfl, rfl, rfl⟩

/-- Witness for C3 with the all-denying authorizer on the sample store:
every handler replies `AuthDenied` and returns the store unchanged. -/
theorem denied_handlers_do_not_mutate_witness :
    AppContext.create_list denyAll dbW "u1" "x" = (.error .authDenied, dbW) ∧
    AppContext.update_list denyAll dbW "u1" "l1" "x" = (.error .authDenied, dbW) ∧
    AppContext.delete_list denyAll dbW "u1" "l1" = (.error .authDenied, dbW) ∧
    AppContext.create_task denyAll dbW "u1" "l1" "x" = (.error .authDenied, dbW) ∧
    AppContext.update_task denyAll dbW "u1" "l1" 1 (some .checked) =
      (.error .authDenied, dbW) ∧
    AppContext.delete_task denyAll dbW "u1" "l1" 1 = (.error .authDenied, dbW) ∧
    AppContext.add_share denyAll dbW "u1" "l1" (userE "u2") .reader =
      (.error .authDenied, dbW) ∧
    AppContext.delete_share denyAll dbW "u1" "l1" (userE "u2") .reader =
      (.error .authDenied, dbW) :=
  denied_handlers_do_not_mutate denyAll dbW "u1" "l1" "x" 1 (some .checked)
    (userE "u2") .reader rfl rfl rfl rfl rfl rfl rfl

/-- C5: a successful `CreateTask` appends exactly one task row, with
state `false` (Unchecked), to the given list, and replies with the
store-assigned ROWID of that row; observed through `get_tasks`, the new
task carries state `Unchecked`. -/
theorem create_task_appends_unchecked_row (auth : Auth) (db : Database)
    (u l name : String)
    (h : auth (userE u) actionCreateTask (listE l) = .allow) :
    AppContext.create_task auth db u l name =
      (.ok (.taskId db.nextRowid),
       { db with tasks := db.tasks ++ [⟨db.nextRowid, name, false, l⟩],
                 nextRowid := db.nextRowid + 1 }) ∧
    EntityStore.get_tasks
        { db with tasks := db.tasks ++ [⟨db.nextRowid, name, false, l⟩],
                  nextRowid := db.nextRowid + 1 } l =
      EntityStore.get_tasks db l ++ [⟨db.nextRowid, name, TaskState.unchecked⟩] := by
  constructor
  · unfold AppContext.create_task AppContext.is_authorized
    rw [h]
    rfl
  · unfold EntityStore.get_tasks
    simp [List.filter_append, TaskState.ofBool]

/-- Witness for C5 on the sample store: the new task gets ROWID 3 and is
observed Unchecked. -/
theorem create_task_appends_unchecked_row_witness :
    AppContext.create_task allowAll dbW "u1" "l1" "c" =
      (.ok (.taskId dbW.nextRowid),
       { dbW with tasks := dbW.tasks ++ [⟨dbW.nextRowid, "c", false, "l1"⟩],
                  nextRowid := dbW.nextRowid + 1 }) ∧
    EntityStore.get_tasks
        { dbW with tasks := dbW.tasks ++ [⟨dbW.nextRowid, "c", false, "l1"⟩],
                   nextRowid := dbW.nextRowid + 1 } "l1" =
      EntityStore.get_tasks dbW "l1" ++ [⟨dbW.nextRowid, "c", TaskState.unchecked⟩] :=
  create_task_appends_unchecked_row allowAll dbW "u1" "l1" "c" rfl

/-- C6: an authorized `DeleteTask` fails with `InvalidTaskId(list, id)`
exactly when no task row with that ROWID exists in that list, and a
successful delete followed by the same delete yields `InvalidTaskId` on
the second call. -/
theorem filter_no_match_any_false (tasks : List TaskRow) (l : String) (id : Int) :
    ((tasks.filter (fun t => !(t.rowid == id && t.list_uid == l))).any
      (fun t => t.rowid == id && t.list_uid == l)) = false := by
  rw [List.any_eq_false]
  intro t ht
  rw [List.mem_filter] at ht
  intro hcontra
  rw [hcontra] at ht
  simp at ht

theorem delete_task_invalid_iff_no_row (auth : Auth) (db : Database)
    (u l : String) (id : Int)
    (h : auth (userE u) actionDeleteTask (listE l) = .allow) :
    ((AppContext.delete_task auth db u l id).1 =
        .error (.invalidTaskId (listE l) id) ↔
      db.tasks.any (fun t => t.rowid == id && t.list_uid == l) = false) ∧
    (∀ db2 : Database, AppContext.delete_task auth db u l id = (.ok .unit, db2) →
      (AppContext.delete_task auth db2 u l id).1 =
        .error (.invalidTaskId (listE l) id)) := by
  unfold AppContext.delete_task AppContext.is_authorized EntityStore.delete_task
  rw [h]
  by_cases hany : db.tasks.any (fun t => t.rowid == id && t.list_uid == l) = true
  · rw [if_pos hany]
    constructor
    · simp [hany]
    · intro db2 heq
      simp only [Prod.mk.injEq, Except.ok.injEq, true_and] at heq
      rw [← heq]
      have hfc : (({ db with
          tasks := List.filter (fun t => !(t.rowid == id && t.list_uid == l)) db.tasks } :
            Database).tasks.any (fun t => t.rowid == id && t.list_uid == l)) = false :=
        filter_no_match_any_false db.tasks l id
      rw [if_neg (by rw [hfc]; exact Bool.false_ne_true)]
  · rw [if_neg hany]
    constructor
    · simp [Bool.eq_false_iff.mpr hany]
    · intro db2 heq
      exact absurd heq (by simp)

/-- Witness for C6 on the sample store: deleting task 1 of `l1` succeeds
and repeating the delete reports `InvalidTaskId`; task 7 never existed,
so its delete reports `InvalidTaskId` at once. -/
theorem delete_task_invalid_iff_no_row_witness :
    (((AppContext.delete_task allowAll dbW "u1" "l1" 7).1 =
        .error (.invalidTaskId (listE "l1") 7) ↔
      dbW.tasks.any (fun t => t.rowid == 7 && t.list_uid == "l1") = false) ∧
    (∀ db2 : Database, AppContext.delete_task allowAll dbW "u1" "l1" 7 = (.ok .unit, db2) →
      (AppContext.delete_task allowAll db2 "u1" "l1" 7).1 =
        .error (.invalidTaskId (listE "l1") 7))) ∧
    (((AppContext.delete_task allowAll dbW "u1" "l1" 1).1 =
        .error (.invalidTaskId (listE "l1") 1) ↔
      dbW.tasks.any (fun t => t.rowid == 1 && t.list_uid == "l1") = false) ∧
    (∀ db2 : Database, AppContext.delete_task allowAll dbW "u1" "l1" 1 = (.ok .unit, db2) →
      (AppContext.delete_task allowAll db2 "u1" "l1" 1).1 =
        .error (.invalidTaskId (listE "l1") 1))) :=
  ⟨delete_task_invalid_iff_no_row allowAll dbW "u1" "l1" 7 rfl,
   delete_task_invalid_iff_no_row allowAll dbW "u1" "l1" 1 rfl⟩

/-- C10: an authorized `UpdateTask` aimed at a (list, id) pair with no
matching task row still replies `Unit` and leaves the store unchanged,
and `update_task` never reports `InvalidTaskId` on any store. -/
theorem update_task_on_missing_row_is_noop (auth : Auth) (db : Database)
    (u l : String) (id : Int) (st : TaskState)
    (h : auth (userE u) actionUpdateTask (listE l) = .allow)
    (hmiss : db.tasks.any (fun t => t.rowid == id && t.list_uid == l) = false) :
    AppContext.update_task auth db u l id (some st) = (.ok .unit, db) ∧
    (∀ (db2 : Database) (st2 : Option TaskState),
      (AppContext.update_task auth db2 u l id st2).1 ≠
        .error (.invalidTaskId (listE l) id)) := by
  constructor
  · unfold AppContext.update_task AppContext.is_authorized EntityStore.update_task
    rw [h]
    simp only [Prod.mk.injEq, Except.ok.injEq, true_and]
    have : db.tasks.map (fun t =>
        if t.rowid == id && t.list_uid == l then
          { t with state := st == TaskState.checked }
        else t) = db.tasks := by
      conv_rhs => rw [← List.map_id db.tasks]
      apply List.map_congr_left
      intro t ht
      rw [if_neg (by simp [List.any_eq_false.mp hmiss t ht])]
      rfl
    rw [this]
  · intro db2 st2
    unfold AppContext.update_task AppContext.is_authorized
    rw [h]
    cases st2 <;> simp

/-- Witness for C10 on the sample store: task 7 does not exist on `l1`,
yet `UpdateTask` replies `Unit` with the store unchanged. -/
theorem update_task_on_missing_row_is_noop_witness :
    AppContext.update_task allowAll dbW "u1" "l1" 7 (some .checked) = (.ok .unit, dbW) ∧
    (∀ (db2 : Database) (st2 : Option TaskState),
      (AppContext.update_task allowAll db2 "u1" "l1" 7 st2).1 ≠
        .error (.invalidTaskId (listE "l1") 7)) :=
  update_task_on_missing_row_is_noop allowAll dbW "u1" "l1" 7 .checked rfl (by decide)

/-- The store invariant behind the sortedness of observed tasks: the
`tasks` table is strictly ascending in ROWID (SQLite inserts at the end
with a fresh monotonic ROWID) and every ROWID is below the next one to
be assigned. -/
def storeInv (db : Database) : Prop :=
  db.tasks.Pairwise (fun a b => a.rowid < b.rowid) ∧
  ∀ t ∈ db.tasks, t.rowid < db.nextRowid

/-- `create_task` preserves the store invariant. -/
theorem storeInv_create_task (db : Database) (l name : String)
    (h : storeInv db) : storeInv (EntityStore.create_task db l name).2 := by
  obtain ⟨hp, hb⟩ := h
  refine ⟨?_, ?_⟩
  · show (db.tasks ++ [(⟨db.nextRowid, name, false, l⟩ : TaskRow)]).Pairwise
      (fun a b => a.rowid < b.rowid)
    rw [List.pairwise_append]
    refine ⟨hp, List.pairwise_singleton _ _, ?_⟩
    intro a ha b hb2
    rw [List.mem_singleton] at hb2
    subst hb2
    exact hb a ha
  · show ∀ t ∈ db.tasks ++ [(⟨db.nextRowid, name, false, l⟩ : TaskRow)],
      t.rowid < db.nextRowid + 1
    intro t ht
    rw [List.mem_append] at ht
    rcases ht with ht | ht
    · exact lt_trans (hb t ht) (by omega)
    · rw [List.mem_singleton] at ht
      subst ht
      simp

/-- `update_task` preserves the store invariant (rows keep their ROWID). -/
theorem storeInv_update_task (db : Database) (l : String) (id : Int)
    (st : TaskState) (h : storeInv db) :
    storeInv (EntityStore.update_task db l id st) := by
  obtain ⟨hp, hb⟩ := h
  refine ⟨?_, ?_⟩
  · show (db.tasks.map (fun t =>
        if t.rowid == id && t.list_uid == l then
          { t with state := st == TaskState.checked }
        else t)).Pairwise (fun a b => a.rowid < b.rowid)
    refine List.Pairwise.map _ ?_ hp
    intro a b hab
    by_cases ha : (a.rowid == id && a.list_uid == l) = true <;>
      by_cases hb2 : (b.rowid == id && b.list_uid == l) = true <;>
        simp [ha, hb2, hab]
  · show ∀ t ∈ db.tasks.map (fun t =>
        if t.rowid == id && t.list_uid == l then
          { t with state := st == TaskState.checked }
        else t), t.rowid < db.nextRowid
    intro t ht
    rw [List.mem_map] at ht
    obtain ⟨s, hs, hst⟩ := ht
    have := hb s hs
    by_cases hcond : (s.rowid == id && s.list_uid == l) = true <;>
      simp [hcond] at hst <;> rw [← hst] <;> simpa
/-- `delete_task` preserves the store invariant. -/
theorem storeInv_delete_task (db db2 : Database) (l : String) (id : Int)
    (h : storeInv db) (hdel : EntityStore.delete_task db l id = .ok db2) :
    storeInv db2 := by
  obtain ⟨hp, hb⟩ := h
  unfold EntityStore.delete_task at hdel
  by_cases hany : db.tasks.any (fun t => t.rowid == id && t.list_uid == l) = true
  · rw [if_pos hany] at hdel
    simp only [Except.ok.injEq] at hdel
    rw [← hdel]
    constructor
    · exact List.Pairwise.filter _ hp
    · intro t ht
      rw [List.mem_filter] at ht
      exact hb t ht.1
  · rw [if_neg hany] at hdel
    exact absurd hdel (by simp)

/-- `delete_list` (with its task cascade) preserves the store invariant. -/
theorem storeInv_delete_list (db : Database) (l : String) (h : storeInv db) :
    storeInv (EntityStore.delete_list db l) := by
  obtain ⟨hp, hb⟩ := h
  refine ⟨List.Pairwise.filter _ hp, ?_⟩
  · show ∀ t ∈ db.tasks.filter (fun t => !(t.list_uid == l)), t.rowid < db.nextRowid
    intro t ht
    rw [List.mem_filter] at ht
    exact hb t ht.1

/-- C4: on a store satisfying the ROWID invariant, the task vector of a
list observed through the `GetList` handler is sorted by strictly
ascending numeric task id. -/
theorem observed_tasks_sorted_by_id (auth : Auth) (db : Database) (u l : String)
    (lst : ListObj) (hs : storeInv db)
    (h : AppContext.get_list auth db u l = .ok (.getList lst)) :
    lst.tasks.Pairwise (fun a b => a.id < b.id) := by
  unfold AppContext.get_list at h
  cases hga : AppContext.is_authorized auth (userE u) actionGetList (listE l) with
  | error e => rw [hga] at h; exact absurd h (by simp)
  | ok _ =>
    rw [hga] at h
    unfold EntityStore.get_list at h
    cases hf : db.lists.find? (fun r => r.uid == l) with
    | none => rw [hf] at h; exact absurd h (by simp)
    | some r =>
      rw [hf] at h
      simp only [Except.ok.injEq, AppResponse.getList.injEq] at h
      have htasks : lst.tasks = EntityStore.get_tasks db l := by rw [← h]
      rw [htasks]
      unfold EntityStore.get_tasks
      refine List.Pairwise.map _ (fun a b hab => hab) ?_
      exact List.Pairwise.filter _ hs.1

/-- Witness for C4 on the sample store: the observed tasks of `l1` are
`[1, 2]`, strictly ascending. -/
theorem observed_tasks_sorted_by_id_witness :
    storeInv dbW ∧
    AppContext.get_list allowAll dbW "u1" "l1" =
      .ok (.getList ⟨"l1", "u1", "groceries",
        [⟨1, "a", .unchecked⟩, ⟨2, "b", .checked⟩], "r1", "e1"⟩) ∧
    ([(⟨1, "a", .unchecked⟩ : TaskObj), ⟨2, "b", .checked⟩]).Pairwise
      (fun a b => a.id < b.id) :=
  ⟨by constructor
      · decide
      · decide,
   by rfl,
   observed_tasks_sorted_by_id allowAll dbW "u1" "l1" _
     ⟨by decide, by decide⟩ (by rfl)⟩

/-- A sample store for the entity-resolution claims: user `u1` belongs to
team `r1`, and team `r1` has super-team `s1` in `subteams`. -/
def dbW7 : Database :=
  ⟨[("u1", "User One")], ["r1", "s1"], [("u1", "r1")], [("r1", "s1")], [], [], 1, 0⟩

/-- C7: for every User present in the `users` table, the entity returned
by the ERL has an ancestor set containing `Application::"TinyTodo"`, the
user itself, and every team of its rows in `team_memberships`. -/
theorem user_ancestors_contain_app_self_teams (db : Database) (u : String)
    (h : db.users.any (fun p => p.1 == u) = true) :
    ∃ e : EntityStore.ModelEntity,
      EntityStore.getEntity db (userE u) = some e ∧
      applicationTinyTodo ∈ e.ancestors ∧
      userE u ∈ e.ancestors ∧
      ∀ p ∈ db.team_memberships, p.1 = u → teamE p.2 ∈ e.ancestors := by
  refine ⟨⟨userE u,
    ((db.team_memberships.filter (fun p => p.1 == u)).map
      (fun p => teamE p.2)) ++ [userE u, applicationTinyTodo]⟩, ?_, ?_, ?_, ?_⟩
  · unfold EntityStore.getEntity
    show (if db.users.any (fun p => p.1 == u) = true then _ else _) = _
    rw [if_pos h]
    rfl
  · simp
  · simp
  · intro p hp hpu
    rw [List.mem_append]
    left
    rw [List.mem_map]
    exact ⟨p, List.mem_filter.mpr ⟨hp, by simp [hpu]⟩, rfl⟩

/-- Witness for C7: user `u1` of the sample store with a membership row,
whose entity carries the Application, itself and the team `r1`. -/
theorem user_ancestors_contain_app_self_teams_witness :
    (dbW7.users.any (fun p => p.1 == "u1") = true) ∧
    ∃ e : EntityStore.ModelEntity,
      EntityStore.getEntity dbW7 (userE "u1") = some e ∧
      applicationTinyTodo ∈ e.ancestors ∧
      userE "u1" ∈ e.ancestors ∧
      ∀ p ∈ dbW7.team_memberships, p.1 = "u1" → teamE p.2 ∈ e.ancestors :=
  ⟨by decide, user_ancestors_contain_app_self_teams dbW7 "u1" (by decide)⟩

/-- Counterexample to C8: team `r1` exists in the sample store, yet the
entity the ERL returns for it has ancestors `[s1, Application]` only —
the team itself is not inserted by the Team branch of
`EntityDatabase::get` (entitystore.rs, lines 60-64), unlike the User
branch. -/
theorem team_entity_lacks_self_in_ancestors :
    EntityStore.getEntity dbW7 (teamE "r1") =
      some ⟨teamE "r1", [teamE "s1", applicationTinyTodo]⟩ ∧
    teamE "r1" ∉ [teamE "s1", applicationTinyTodo] := by
  exact ⟨rfl, by decide⟩

/-- C8 amended: for every Team present in the store, the entity returned
by the ERL has an ancestor set containing `Application::"TinyTodo"` and
every super-team from `subteams` — but not the team itself. -/
theorem team_ancestors_contain_app_and_superteams (db : Database) (t : String)
    (h : db.teams.any (fun x => x == t) = true) :
    ∃ e : EntityStore.ModelEntity,
      EntityStore.getEntity db (teamE t) = some e ∧
      applicationTinyTodo ∈ e.ancestors ∧
      ∀ p ∈ db.subteams, p.1 = t → teamE p.2 ∈ e.ancestors := by
  refine ⟨⟨teamE t,
    ((db.subteams.filter (fun p => p.1 == t)).map (fun p => teamE p.2)) ++
      [applicationTinyTodo]⟩, ?_, ?_, ?_⟩
  · unfold EntityStore.getEntity
    show (if db.teams.any (fun x => x == t) = true then _ else _) = _
    rw [if_pos h]
    rfl
  · simp
  · intro p hp hpt
    rw [List.mem_append]
    left
    rw [List.mem_map]
    exact ⟨p, List.mem_filter.mpr ⟨hp, by simp [hpt]⟩, rfl⟩

/-- Witness for the amended C8: team `r1` of the sample store carries the
Application and its super-team `s1`. -/
theorem team_ancestors_contain_app_and_superteams_witness :
    (dbW7.teams.any (fun x => x == "r1") = true) ∧
    ∃ e : EntityStore.ModelEntity,
      EntityStore.getEntity dbW7 (teamE "r1") = some e ∧
      applicationTinyTodo ∈ e.ancestors ∧
      ∀ p ∈ dbW7.subteams, p.1 = "r1" → teamE p.2 ∈ e.ancestors :=
  ⟨by decide, team_ancestors_contain_app_and_superteams dbW7 "r1" (by decide)⟩

/-- Scenario B store: the two users, nothing else. -/
def dbB0 : Database :=
  ⟨[("u1", "User One"), ("u2", "User Two")], [], [], [], [], [], 1, 0⟩

/-- The store after `CreateList(U1, "work")`: readers team `uuid-0`,
editors team `uuid-1`, list row `uuid-2`. -/
def dbB1 : Database := (AppContext.create_list allowAll dbB0 "u1" "work").2

/-- The uid assigned to the new list `L2`. -/
def listB : String := "uuid-2"

/-- The `GetList` policy conditions instantiated at principal `u2`, as in
Scenario B: the owner may read, and members of the readers team may
read. -/
def condsB : List CExpr :=
  [.or (.attrEqEuid .owner "u2") (.principalInTeamAttr "u2" .readers)]

/-- C9 evaluated on the code: after `CreateList(U1, "work") = L2` and an
authorized `AddShare(U1, L2, U2, Reader)`, the store is unchanged by the
share (the membership mutation of `add_share` is commented out in
context.rs, lines 304-311), so `GetLists(U2)` under the Scenario B
policy returns the empty sequence — it does not contain `L2` as the
scenario expects. -/
theorem add_share_has_no_observable_effect :
    AppContext.create_list allowAll dbB0 "u1" "work" =
      (.ok (.euid (listE listB)), dbB1) ∧
    AppContext.add_share allowAll dbB1 "u1" listB (userE "u2") .reader =
      (.ok .unit, dbB1) ∧
    AppContext.get_lists allowAll condsB dbB1 "u2" = .ok (.lists []) := by
  exact ⟨rfl, rfl, rfl⟩
